import Mathlib

/-
Verification of the visual scoring engine of superdoc-visual-benchmarks
(src/superdoc_benchmark/compare/score.py) through a shallow embedding.
Floating-point values are modelled as rationals; images are lists of rows
of pixels.  External image-processing primitives (skimage / scipy calls:
SSIM, Canny, Otsu, CIEDE2000, phase correlation, resize) are modelled as
parameters of a Prims structure, while everything score.py implements
itself (mask F1 with tolerance, edge IoU, blob penalty, thresholding,
warping, the single-issue decision and the document aggregation) is
translated directly from the source.
-/

/-- One RGB pixel with channels in the unit interval. -/
structure Pix where
  r : ℚ
  g : ℚ
  b : ℚ
deriving DecidableEq

/-- An RGB image: a list of rows of pixels. -/
abbrev Img := List (List Pix)

/-- A grayscale image. -/
abbrev Gray := List (List ℚ)

/-- A binary mask. -/
abbrev Mask := List (List Bool)

/-- Grayscale conversion with the luminance coefficients used by
skimage.color.rgb2gray. -/
def rgb2gray (p : Pix) : ℚ :=
  2125 / 10000 * p.r + 7154 / 10000 * p.g + 721 / 10000 * p.b

/-- Grayscale conversion of a whole image. -/
def rgb2grayImg (img : Img) : Gray :=
  img.map (List.map rgb2gray)

/-- The pure-white pixel (value 1.0 on all channels). -/
def whitePix : Pix := ⟨1, 1, 1⟩

/-- A blank white page of the given height and width. -/
def whiteImg (h w : Nat) : Img :=
  List.replicate h (List.replicate w whitePix)

/-- Coordinates of the true entries of one row, with row index i and
starting column index k. -/
def idxTrue (i : Nat) : Nat → List Bool → List (Nat × Nat)
  | _, [] => []
  | k, bb :: bs => (if bb then [(i, k)] else []) ++ idxTrue i (k + 1) bs

/-- Coordinates of the true entries of a mask, starting at row index i. -/
def truePixelsFrom : Nat → Mask → List (Nat × Nat)
  | _, [] => []
  | i, row :: rows => idxTrue i 0 row ++ truePixelsFrom (i + 1) rows

/-- Coordinates of the true entries of a mask. -/
def truePixels (m : Mask) : List (Nat × Nat) :=
  truePixelsFrom 0 m

/-- Number of true entries of a mask (numpy mask.sum()). -/
def maskSum (m : Mask) : Nat :=
  (truePixels m).length

/-- Squared Euclidean distance between two pixel coordinates. -/
def dist2 (p q : Nat × Nat) : ℤ :=
  ((p.1 : ℤ) - q.1) ^ 2 + ((p.2 : ℤ) - q.2) ^ 2

/-- Whether q lies within Euclidean distance tol of p.  Mirrors the
distance-transform test dt <= tol (distances are nonnegative, so a
negative tolerance matches nothing). -/
def withinTol (tol : ℚ) (p q : Nat × Nat) : Bool :=
  decide (0 ≤ tol ∧ ((dist2 p q : ℤ) : ℚ) ≤ tol ^ 2)

/-- Number of true pixels of a that lie within tol of some true pixel of
b; this is ((distance_transform_edt(~b) <= tol) & a).sum(). -/
def matchCount (a b : Mask) (tol : ℚ) : Nat :=
  ((truePixels a).filter fun p => (truePixels b).any fun q => withinTol tol p q).length

/-- Translation of score.py _f1_with_tolerance: tolerant F1 between two
ink masks with explicit special cases for empty masks. -/
def f1_with_tolerance (a b : Mask) (tol : ℚ) : ℚ :=
  if maskSum a = 0 ∧ maskSum b = 0 then 1
  else if maskSum a = 0 ∨ maskSum b = 0 then 0
  else
    let rcl : ℚ := (matchCount a b tol : ℚ) / (maskSum a : ℚ)
    let prc : ℚ := (matchCount b a tol : ℚ) / (maskSum b : ℚ)
    if prc + rcl = 0 then 0
    else 2 * prc * rcl / (prc + rcl)

/-- Apply an index-aware Boolean function to one row (row index i,
starting column index k). -/
def mapRowIdx (f : Nat → Nat → Bool → Bool) (i : Nat) : Nat → List Bool → List Bool
  | _, [] => []
  | k, bb :: bs => f i k bb :: mapRowIdx f i (k + 1) bs

/-- Apply an index-aware Boolean function to a mask, starting at row i. -/
def mapIdxFrom (f : Nat → Nat → Bool → Bool) : Nat → Mask → Mask
  | _, [] => []
  | i, row :: rows => mapRowIdx f i 0 row :: mapIdxFrom f (i + 1) rows

/-- Apply an index-aware Boolean function to every entry of a mask. -/
def mapMaskIdx (f : Nat → Nat → Bool → Bool) (m : Mask) : Mask :=
  mapIdxFrom f 0 m

/-- Binary dilation of a mask by a disk of the given radius
(morphology.binary_dilation with morphology.disk; the disk of a
nonnegative radius contains its center, hence the v ||). -/
def dilateMask (m : Mask) (radius : ℤ) : Mask :=
  mapMaskIdx (fun i j v => v || (truePixels m).any fun q => decide (dist2 (i, j) q ≤ radius ^ 2)) m

/-- Pointwise conjunction of two masks (numpy logical_and). -/
def zipAnd (a b : Mask) : Mask :=
  List.zipWith (List.zipWith (· && ·)) a b

/-- Pointwise disjunction of two masks (numpy logical_or). -/
def zipOr (a b : Mask) : Mask :=
  List.zipWith (List.zipWith (· || ·)) a b

/-- Pointwise exclusive or of two masks (numpy logical_xor). -/
def zipXor (a b : Mask) : Mask :=
  List.zipWith (List.zipWith xor) a b

/-- Translation of score.py _edge_iou: IoU of edge masks after optional
dilation, with the both-empty special case. -/
def edge_iou (a b : Mask) (dilate : ℤ) : ℚ :=
  if maskSum a = 0 ∧ maskSum b = 0 then 1
  else
    let a2 := if 0 < dilate then dilateMask a dilate else a
    let b2 := if 0 < dilate then dilateMask b dilate else b
    let inter := maskSum (zipAnd a2 b2)
    let union := maskSum (zipOr a2 b2)
    if union = 0 then 0 else (inter : ℚ) / (union : ℚ)

/-- 4-neighborhood adjacency of pixel coordinates (connectivity 1). -/
def neighbors4 (p q : Nat × Nat) : Bool :=
  decide (dist2 p q = 1)

/-- One step of connected-component growth inside the true pixels tps. -/
def expandComp (tps : List (Nat × Nat)) (s : List (Nat × Nat)) : List (Nat × Nat) :=
  (s ++ tps.filter fun q => s.any fun p => neighbors4 p q).dedup

/-- The connected component (4-connectivity) of pixel p in mask m,
computed by saturating neighbor expansion. -/
def componentOf (m : Mask) (p : Nat × Nat) : List (Nat × Nat) :=
  (expandComp (truePixels m))^[(truePixels m).length] [p]

/-- Size of the connected component of p in m. -/
def componentSize (m : Mask) (p : Nat × Nat) : Nat :=
  (componentOf m p).length

/-- Model of skimage morphology.remove_small_objects: keep a true pixel
iff its connected component has at least min_size pixels. -/
def remove_small_objects (m : Mask) (min_size : Nat) : Mask :=
  mapMaskIdx (fun i j v => v && decide (min_size ≤ componentSize m (i, j))) m

/-- Area of the largest connected component of a mask. -/
def largestComponent (m : Mask) : Nat :=
  ((truePixels m).map fun p => componentSize m p).foldr max 0

/-- Translation of score.py _blob_penalty: fractional area of the largest
mismatched blob after small-object removal. -/
def blob_penalty (mismatch ink_union : Mask) (min_size : Nat) : ℚ :=
  let m2 := remove_small_objects mismatch min_size
  if maskSum m2 = 0 ∨ maskSum ink_union = 0 then 0
  else min 1 ((largestComponent m2 : ℚ) / (maskSum ink_union : ℚ))

/-- Sum of a pixelwise color difference over the masked entries of one
row. -/
def deltaRowSum (dE : Pix → Pix → ℚ) : List Pix → List Pix → List Bool → ℚ
  | pa :: as, pb :: bs, v :: vs =>
      (if v then dE pa pb else 0) + deltaRowSum dE as bs vs
  | _, _, _ => 0

/-- Sum of a pixelwise color difference over the masked entries of two
images. -/
def deltaSum (dE : Pix → Pix → ℚ) : Img → Img → Mask → ℚ
  | ra :: ras, rb :: rbs, rm :: rms =>
      deltaRowSum dE ra rb rm + deltaSum dE ras rbs rms
  | _, _, _ => 0

/-- Translation of score.py _delta_e_mean: mean pixelwise color
difference over a mask, 0 when the mask is empty. -/
def delta_e_mean (dE : Pix → Pix → ℚ) (a b : Img) (mask : Mask) : ℚ :=
  if maskSum mask = 0 then 0
  else deltaSum dE a b mask / (maskSum mask : ℚ)

/-- Translation of the ScoreWeights dataclass with its default weights. -/
structure ScoreWeights where
  ssim_full : ℚ := 1 / 4
  ssim_small : ℚ := 3 / 20
  ink_f1 : ℚ := 1 / 5
  edge_iou : ℚ := 3 / 20
  color_sim : ℚ := 3 / 20
  blob_sim : ℚ := 1 / 10
deriving DecidableEq

/-- Sum of the six weights (sum(asdict(self).values())). -/
def ScoreWeights.total (w : ScoreWeights) : ℚ :=
  w.ssim_full + w.ssim_small + w.ink_f1 + w.edge_iou + w.color_sim + w.blob_sim

/-- Translation of ScoreWeights.normalized: rescale the weights to sum to
one, returning them unchanged when the sum is not positive. -/
def ScoreWeights.normalized (w : ScoreWeights) : ScoreWeights :=
  if w.total ≤ 0 then w
  else
    let scale := 1 / w.total
    ⟨w.ssim_full * scale, w.ssim_small * scale, w.ink_f1 * scale,
     w.edge_iou * scale, w.color_sim * scale, w.blob_sim * scale⟩

/-- All six weights multiplied by the same scalar. -/
def ScoreWeights.smul (c : ℚ) (w : ScoreWeights) : ScoreWeights :=
  ⟨c * w.ssim_full, c * w.ssim_small, c * w.ink_f1,
   c * w.edge_iou, c * w.color_sim, c * w.blob_sim⟩

/-- Translation of the ScoreConfig dataclass with its default values. -/
structure ScoreConfig where
  max_shift_px : ℚ := 5
  align_upsample : Nat := 10
  downscale_factor : ℚ := 1 / 4
  edge_sigma : ℚ := 6 / 5
  edge_dilate : ℤ := 1
  ink_min_size : Nat := 24
  ink_tol_px : ℚ := 2
  drift_sigma : ℚ := 2
  min_drift_px : ℚ := 1
  single_issue_cap : ℚ := 30
  single_issue_min_gain : ℚ := 15
  single_issue_min_ssim_small : ℚ := 7 / 10
  single_issue_min_ink_f1 : ℚ := 13 / 20
  single_issue_min_edge_iou : ℚ := 1 / 2
  single_issue_max_blob_penalty : ℚ := 3 / 100
  color_deltaE_max : ℚ := 20
  blob_min_size : Nat := 40
  weights : ScoreWeights := {}

/-- The default configuration. -/
def defaultConfig : ScoreConfig := {}

/-- External image-processing primitives that score.py calls from skimage
and scipy; modelled as parameters because their numeric definitions live
outside the repository.  otsu returns none when threshold_otsu raises
ValueError; phaseCorr takes the upsample factor and returns the
(shift_y, shift_x) estimate of phase_cross_correlation. -/
structure Prims where
  ssim : Gray → Gray → ℚ
  resizeGray : Gray → Nat × Nat → Gray
  canny : Gray → ℚ → Mask
  otsu : Gray → Option ℚ
  deltaE : Pix → Pix → ℚ
  phaseCorr : Gray → Gray → Nat → ℚ × ℚ

/-- The ink threshold actually used by _ink_mask: the Otsu threshold with
0.95 as fallback on ValueError, then capped at 0.95. -/
def otsu_threshold_used (o : Option ℚ) : ℚ :=
  min (match o with | some t => t | none => 95 / 100) (95 / 100)

/-- Pixels strictly darker than the threshold (gray < thr). -/
def grayLT (g : Gray) (thr : ℚ) : Mask :=
  g.map (List.map fun v => decide (v < thr))

/-- Translation of score.py _ink_mask: threshold at the capped Otsu value
and drop small connected components. -/
def ink_mask (P : Prims) (gray : Gray) (min_size : Nat) : Mask :=
  remove_small_objects (grayLT gray (otsu_threshold_used (P.otsu gray))) min_size

/-- Clamp a value to the unit interval (min(max(x, 0.0), 1.0)). -/
def clamp01 (x : ℚ) : ℚ :=
  min (max x 0) 1

/-- The weighted combination of the six clamped sub-metrics, scaled to
0-100, using the normalized weights as in _compute_metrics. -/
def weighted_score (w : ScoreWeights) (sf ss f1 ei cs bs : ℚ) : ℚ :=
  let W := w.normalized
  (W.ssim_full * sf + W.ssim_small * ss + W.ink_f1 * f1 +
   W.edge_iou * ei + W.color_sim * cs + W.blob_sim * bs) * 100

/-- The dict returned by _compute_metrics. -/
structure MetricValues where
  score : ℚ
  ssim_full : ℚ
  ssim_small : ℚ
  ink_f1 : ℚ
  edge_iou : ℚ
  color_sim : ℚ
  delta_e : ℚ
  blob_penalty : ℚ
  ink_area : Nat
deriving DecidableEq

/-- Width of a grayscale image (shape[1]). -/
def grayWidth (g : Gray) : Nat :=
  (g.headD []).length

/-- Translation of score.py _compute_metrics: the six sub-metrics of a
reference/candidate pair and their weighted combination. -/
def compute_metrics (P : Prims) (word_rgb sd_rgb : Img) (cfg : ScoreConfig) : MetricValues :=
  let word_gray := rgb2grayImg word_rgb
  let sd_gray := rgb2grayImg sd_rgb
  let ink_word := ink_mask P word_gray cfg.ink_min_size
  let ink_sd := ink_mask P sd_gray cfg.ink_min_size
  let ink_union := zipOr ink_word ink_sd
  let ssim_full := P.ssim word_gray sd_gray
  let ssim_small :=
    if cfg.downscale_factor < 1 then
      let hsmall := max 1 (((word_gray.length : ℚ) * cfg.downscale_factor).floor.toNat)
      let wsmall := max 1 (((grayWidth word_gray : ℚ) * cfg.downscale_factor).floor.toNat)
      P.ssim (P.resizeGray word_gray (hsmall, wsmall)) (P.resizeGray sd_gray (hsmall, wsmall))
    else ssim_full
  let ink_f1v := f1_with_tolerance ink_word ink_sd cfg.ink_tol_px
  let edge_word := P.canny word_gray cfg.edge_sigma
  let edge_sd := P.canny sd_gray cfg.edge_sigma
  let edge_iouv := edge_iou edge_word edge_sd cfg.edge_dilate
  let mismatch := zipXor ink_word ink_sd
  let blob_pen := blob_penalty mismatch ink_union cfg.blob_min_size
  let d_e := delta_e_mean P.deltaE word_rgb sd_rgb ink_union
  let color_simv := max 0 (1 - min (d_e / cfg.color_deltaE_max) 1)
  let sf := clamp01 ssim_full
  let ss := clamp01 ssim_small
  let f1c := clamp01 ink_f1v
  let eic := clamp01 edge_iouv
  let csc := clamp01 color_simv
  let bsc := clamp01 (1 - blob_pen)
  { score := weighted_score cfg.weights sf ss f1c eic csc bsc
    ssim_full := sf
    ssim_small := ss
    ink_f1 := f1c
    edge_iou := eic
    color_sim := csc
    delta_e := d_e
    blob_penalty := blob_pen
    ink_area := maskSum ink_union }

/-- Pixel lookup with constant white fill outside the image bounds. -/
def getPix (img : Img) (yi xi : ℤ) : Pix :=
  if yi < 0 ∨ xi < 0 then whitePix
  else (((img.get? yi.toNat).getD []).get? xi.toNat).getD whitePix

/-- Bilinear sample of an image at real coordinates, with constant white
fill (order=1, mode=constant, cval=1.0). -/
def bilinearAt (img : Img) (cy cx : ℚ) : Pix :=
  let y0 : ℤ := ⌊cy⌋
  let x0 : ℤ := ⌊cx⌋
  let dy : ℚ := cy - y0
  let dx : ℚ := cx - x0
  let p00 := getPix img y0 x0
  let p01 := getPix img y0 (x0 + 1)
  let p10 := getPix img (y0 + 1) x0
  let p11 := getPix img (y0 + 1) (x0 + 1)
  let blend : ℚ → ℚ → ℚ → ℚ → ℚ := fun v00 v01 v10 v11 =>
    (1 - dy) * ((1 - dx) * v00 + dx * v01) + dy * ((1 - dx) * v10 + dx * v11)
  ⟨blend p00.r p01.r p10.r p11.r,
   blend p00.g p01.g p10.g p11.g,
   blend p00.b p01.b p10.b p11.b⟩

/-- Index-aware map over an image, used to build warped outputs of the
same shape. -/
def mapPixRowIdx (f : Nat → Nat → Pix) (i : Nat) : Nat → List Pix → List Pix
  | _, [] => []
  | k, _ :: ps => f i k :: mapPixRowIdx f i (k + 1) ps

/-- Index-aware map over all pixels of an image. -/
def mapPixIdxFrom (f : Nat → Nat → Pix) : Nat → Img → Img
  | _, [] => []
  | i, row :: rows => mapPixRowIdx f i 0 row :: mapPixIdxFrom f (i + 1) rows

/-- Model of transform.warp with SimilarityTransform(translation =
(-shift_x, -shift_y)), order 1 and constant white fill: every output
pixel samples the input at (y - shift_y, x - shift_x). -/
def warpTranslation (img : Img) (shift_y shift_x : ℚ) : Img :=
  mapPixIdxFrom (fun y x => bilinearAt img ((y : ℚ) - shift_y) ((x : ℚ) - shift_x)) 0 img

/-- Translation of score.py _align_images: estimate the translation by
phase correlation and warp the candidate unless the shift exceeds the
bound along either axis. -/
def align_images (P : Prims) (ref_gray mov_gray : Gray) (mov_rgb : Img) (cfg : ScoreConfig) : Img :=
  let s := P.phaseCorr ref_gray mov_gray cfg.align_upsample
  let shift_y := s.1
  let shift_x := s.2
  if cfg.max_shift_px < |shift_x| ∨ cfg.max_shift_px < |shift_y| then mov_rgb
  else warpTranslation mov_rgb shift_y shift_x

/-- The single-issue gate of _score_page: all conditions of lines
325-333 of score.py. -/
def singleIssueGate (cfg : ScoreConfig) (strictM driftM : MetricValues)
    (drift_applied : Bool) (drift_strength : ℚ) : Bool :=
  drift_applied
    && decide (cfg.single_issue_min_gain ≤ driftM.score - strictM.score)
    && decide (cfg.min_drift_px ≤ drift_strength)
    && decide (cfg.single_issue_min_ssim_small ≤ driftM.ssim_small)
    && decide (cfg.single_issue_min_ink_f1 ≤ driftM.ink_f1)
    && decide (cfg.single_issue_min_edge_iou ≤ driftM.edge_iou)
    && decide (driftM.blob_penalty ≤ cfg.single_issue_max_blob_penalty)

/-- The combined per-page score of _score_page: the strict score plus a
capped boost when the single-issue gate grants credit. -/
def combinedScore (cfg : ScoreConfig) (strictM driftM : MetricValues)
    (drift_applied : Bool) (drift_strength : ℚ) : ℚ :=
  if singleIssueGate cfg strictM driftM drift_applied drift_strength then
    strictM.score + min cfg.single_issue_cap (driftM.score - strictM.score)
  else strictM.score

/-- The per-page record returned by _score_page, keeping the strict and
drift metric sets whose fields the returned dict flattens. -/
structure PageRec where
  page : Nat := 0
  score : ℚ
  score_strict : ℚ
  score_drift : ℚ
  single_issue_applied : Bool
  drift_applied : Bool
  drift_strength_px : ℚ
  strictM : MetricValues
  driftM : MetricValues
deriving DecidableEq

/-- The tail of _score_page (lines 324-363): build the page record from
the two metric passes and the drift information. -/
def score_page_from (cfg : ScoreConfig) (strictM driftM : MetricValues)
    (drift_applied : Bool) (drift_strength : ℚ) : PageRec :=
  { page := 0
    score := combinedScore cfg strictM driftM drift_applied drift_strength
    score_strict := strictM.score
    score_drift := driftM.score
    single_issue_applied := singleIssueGate cfg strictM driftM drift_applied drift_strength
    drift_applied := drift_applied
    drift_strength_px := drift_strength
    strictM := strictM
    driftM := driftM }

/-- Per-page aggregation weight: max(ink_area, 1), where the dict entry
ink_area is the strict ink_area. -/
def pageWeight (p : PageRec) : Nat :=
  max p.strictM.ink_area 1

/-- One iteration of the aggregation loop of score_document: accumulate
total_weight and the three weighted sums. -/
def aggStep (acc : Nat × ℚ × ℚ × ℚ) (p : PageRec) : Nat × ℚ × ℚ × ℚ :=
  (acc.1 + pageWeight p,
   acc.2.1 + p.score * (pageWeight p : ℚ),
   acc.2.2.1 + p.score_strict * (pageWeight p : ℚ),
   acc.2.2.2 + p.score_drift * (pageWeight p : ℚ))

/-- Minimum of a list of rationals (min() over a nonempty generator in
the source; the empty case is never reached there). -/
def listMin : List ℚ → ℚ
  | [] => 0
  | x :: xs => xs.foldl min x

/-- The document-level record returned by score_document. -/
structure DocScore where
  overall_score : ℚ
  overall_score_strict : ℚ
  overall_score_drift : ℚ
  page_count : Nat
  average_score : ℚ
  average_score_strict : ℚ
  average_score_drift : ℚ
  min_score : ℚ
  min_score_strict : ℚ
  min_score_drift : ℚ
  pages : List PageRec
deriving DecidableEq

/-- The aggregation part of score_document (lines 378-417): weighted
averages, per-variant minima and the 0.7/0.3 blend. -/
def aggregate (pages : List PageRec) : DocScore :=
  let acc := pages.foldl aggStep (0, 0, 0, 0)
  let total_weight := acc.1
  let avg := if total_weight = 0 then 0 else acc.2.1 / (total_weight : ℚ)
  let avg_strict := if total_weight = 0 then 0 else acc.2.2.1 / (total_weight : ℚ)
  let avg_drift := if total_weight = 0 then 0 else acc.2.2.2 / (total_weight : ℚ)
  let min_s := listMin (pages.map PageRec.score)
  let min_strict := listMin (pages.map PageRec.score_strict)
  let min_drift := listMin (pages.map PageRec.score_drift)
  { overall_score := 7 / 10 * avg + 3 / 10 * min_s
    overall_score_strict := 7 / 10 * avg_strict + 3 / 10 * min_strict
    overall_score_drift := 7 / 10 * avg_drift + 3 / 10 * min_drift
    page_count := pages.length
    average_score := avg
    average_score_strict := avg_strict
    average_score_drift := avg_drift
    min_score := min_s
    min_score_strict := min_strict
    min_score_drift := min_drift
    pages := pages }

/-- Number the pages starting from 1, as the loop does with
metrics_page["page"] = idx + 1. -/
def numberPages : Nat → List PageRec → List PageRec
  | _, [] => []
  | i, p :: ps => { p with page := i + 1 } :: numberPages (i + 1) ps

/-- Translation of score_document, with the per-page pipeline
(_load_image, _resize_to_match and _score_page) abstracted as the
function sp on the two already-loaded page images. -/
def score_document (sp : Img → Img → PageRec) (word_pages superdoc_pages : List Img) :
    Except String DocScore :=
  let page_count := min word_pages.length superdoc_pages.length
  if page_count = 0 then Except.error "No pages available for scoring."
  else Except.ok (aggregate (numberPages 0 (List.zipWith sp word_pages superdoc_pages)))

/-- A concrete primitive family used to instantiate hypotheses in
witnesses: SSIM constantly one, zero color difference, no edges, Otsu
failing (ValueError), zero phase shift. -/
def trivPrims : Prims :=
  { ssim := fun _ _ => 1
    resizeGray := fun g _ => g
    canny := fun g _ => g.map (List.map fun _ => false)
    otsu := fun _ => none
    deltaE := fun _ _ => 0
    phaseCorr := fun _ _ _ => (0, 0) }

/-- A primitive family whose phase correlation reports a 7-pixel
horizontal shift, beyond the default 5-pixel bound. -/
def bigShiftPrims : Prims :=
  { trivPrims with phaseCorr := fun _ _ _ => (0, 7) }

/-- Concrete page record for witnesses: a page scoring 100 with ink area
1000 (the aggregation example of the specification). -/
def pgA : PageRec :=
  ⟨1, 100, 100, 100, false, false, 0,
   ⟨100, 1, 1, 1, 1, 1, 0, 0, 1000⟩, ⟨100, 1, 1, 1, 1, 1, 0, 0, 1000⟩⟩

/-- Concrete page record for witnesses: a page scoring 0 with ink area
10 (the aggregation example of the specification). -/
def pgB : PageRec :=
  ⟨2, 0, 0, 0, false, false, 0,
   ⟨0, 0, 0, 0, 0, 0, 0, 0, 10⟩, ⟨0, 0, 0, 0, 0, 0, 0, 0, 10⟩⟩

lemma zipWith_self_eq {α : Type} (f : α → α → α) (hf : ∀ x, f x x = x) :
    ∀ l : List α, List.zipWith f l l = l := by
  intro l
  induction l with
  | nil => rfl
  | cons x xs ih => simp [List.zipWith, hf, ih]

lemma zipAnd_self (m : Mask) : zipAnd m m = m := by
  unfold zipAnd
  exact zipWith_self_eq _ (fun r => zipWith_self_eq _ Bool.and_self r) m

lemma zipOr_self (m : Mask) : zipOr m m = m := by
  unfold zipOr
  exact zipWith_self_eq _ (fun r => zipWith_self_eq _ Bool.or_self r) m

lemma idxTrue_replicate_false (i : Nat) :
    ∀ (k n : Nat), idxTrue i k (List.replicate n false) = [] := by
  intro k n
  induction n generalizing k with
  | zero => rfl
  | succ n ih => simp [List.replicate, idxTrue, ih]

lemma idxTrue_xor_self (i : Nat) :
    ∀ (k : Nat) (r : List Bool), idxTrue i k (List.zipWith xor r r) = [] := by
  intro k r
  induction r generalizing k with
  | nil => rfl
  | cons b bs ih => simp [List.zipWith, idxTrue, Bool.xor_self, ih, idxTrue_replicate_false]

lemma truePixelsFrom_xor_self :
    ∀ (i : Nat) (m : Mask), truePixelsFrom i (zipXor m m) = [] := by
  intro i m
  induction m generalizing i with
  | nil => rfl
  | cons r rs ih =>
      show idxTrue i 0 (List.zipWith xor r r) ++ truePixelsFrom (i + 1) (zipXor rs rs) = []
      rw [idxTrue_xor_self i 0 r, ih (i + 1)]
      rfl

lemma maskSum_zipXor_self (m : Mask) : maskSum (zipXor m m) = 0 := by
  simp [maskSum, truePixels, truePixelsFrom_xor_self]

lemma length_idxTrue_mapRowIdx_le (f : Nat → Nat → Bool → Bool)
    (hf : ∀ i k, f i k false = false) (i : Nat) :
    ∀ (k : Nat) (r : List Bool),
      (idxTrue i k (mapRowIdx f i k r)).length ≤ (idxTrue i k r).length := by
  intro k r
  induction r generalizing k with
  | nil => simp [mapRowIdx]
  | cons b bs ih =>
      cases b with
      | false => simpa [mapRowIdx, idxTrue, hf] using ih (k + 1)
      | true =>
          cases hfk : f i k true with
          | false =>
              simp only [mapRowIdx, hfk, idxTrue, if_neg Bool.false_ne_true, if_pos rfl,
                List.nil_append, List.length_append, List.length_cons]
              exact le_trans (ih (k + 1)) (by simp)
          | true =>
              simp only [mapRowIdx, hfk, idxTrue, if_pos rfl, List.length_append,
                List.length_cons]
              exact Nat.add_le_add_left (ih (k + 1)) _

lemma length_idxTrue_mapRowIdx_ge (f : Nat → Nat → Bool → Bool)
    (hf : ∀ i k, f i k true = true) (i : Nat) :
    ∀ (k : Nat) (r : List Bool),
      (idxTrue i k r).length ≤ (idxTrue i k (mapRowIdx f i k r)).length := by
  intro k r
  induction r generalizing k with
  | nil => simp [mapRowIdx]
  | cons b bs ih =>
      cases b with
      | true => simpa [mapRowIdx, idxTrue, hf] using ih (k + 1)
      | false =>
          cases hfk : f i k false with
          | false => simpa [mapRowIdx, idxTrue, hfk] using ih (k + 1)
          | true =>
              simp only [mapRowIdx, hfk, idxTrue, if_neg Bool.false_ne_true, if_pos rfl,
                List.nil_append, List.length_append, List.length_cons]
              exact le_trans (ih (k + 1)) (by simp)

lemma truePixelsFrom_mapIdxFrom_le (f : Nat → Nat → Bool → Bool)
    (hf : ∀ i k, f i k false = false) :
    ∀ (i : Nat) (m : Mask),
      (truePixelsFrom i (mapIdxFrom f i m)).length ≤ (truePixelsFrom i m).length := by
  intro i m
  induction m generalizing i with
  | nil => simp [mapIdxFrom]
  | cons r rs ih =>
      simp only [mapIdxFrom, truePixelsFrom, List.length_append]
      exact Nat.add_le_add (length_idxTrue_mapRowIdx_le f hf i 0 r) (ih (i + 1))

lemma truePixelsFrom_mapIdxFrom_ge (f : Nat → Nat → Bool → Bool)
    (hf : ∀ i k, f i k true = true) :
    ∀ (i : Nat) (m : Mask),
      (truePixelsFrom i m).length ≤ (truePixelsFrom i (mapIdxFrom f i m)).length := by
  intro i m
  induction m generalizing i with
  | nil => simp [mapIdxFrom]
  | cons r rs ih =>
      simp only [mapIdxFrom, truePixelsFrom, List.length_append]
      exact Nat.add_le_add (length_idxTrue_mapRowIdx_ge f hf i 0 r) (ih (i + 1))

lemma maskSum_remove_small_le (m : Mask) (s : Nat) :
    maskSum (remove_small_objects m s) ≤ maskSum m := by
  unfold remove_small_objects mapMaskIdx maskSum truePixels
  exact truePixelsFrom_mapIdxFrom_le _ (by intro i k; rfl) 0 m

lemma maskSum_dilate_ge (m : Mask) (r : ℤ) :
    maskSum m ≤ maskSum (dilateMask m r) := by
  unfold dilateMask mapMaskIdx maskSum truePixels
  exact truePixelsFrom_mapIdxFrom_ge _ (by intro i k; rfl) 0 m

lemma withinTol_self (tol : ℚ) (htol : 0 ≤ tol) (p : Nat × Nat) :
    withinTol tol p p = true := by
  simp only [withinTol, decide_eq_true_eq]
  refine ⟨htol, ?_⟩
  have h0 : dist2 p p = 0 := by simp [dist2]
  rw [h0]
  push_cast
  positivity

lemma f1_self (m : Mask) (tol : ℚ) (htol : 0 ≤ tol) :
    f1_with_tolerance m m tol = 1 := by
  by_cases hm : maskSum m = 0
  · simp [f1_with_tolerance, hm]
  · have hmc : matchCount m m tol = maskSum m := by
      unfold matchCount maskSum
      congr 1
      refine List.filter_eq_self.mpr ?_
      intro p hp
      exact List.any_eq_true.mpr ⟨p, hp, withinTol_self tol htol p⟩
    have hq : ((maskSum m : ℚ)) ≠ 0 := Nat.cast_ne_zero.mpr hm
    simp only [f1_with_tolerance, hmc, hm, and_self, or_self, if_neg hm, div_self hq]
    norm_num

lemma edge_iou_self (m : Mask) (d : ℤ) : edge_iou m m d = 1 := by
  by_cases hm : maskSum m = 0
  · simp [edge_iou, hm]
  · have key : ∀ m2 : Mask, maskSum m2 ≠ 0 →
        (if maskSum (zipOr m2 m2) = 0 then (0 : ℚ)
         else (maskSum (zipAnd m2 m2) : ℚ) / (maskSum (zipOr m2 m2) : ℚ)) = 1 := by
      intro m2 h2
      rw [zipAnd_self, zipOr_self, if_neg h2, div_self (Nat.cast_ne_zero.mpr h2)]
    unfold edge_iou
    rw [if_neg (by simp [hm])]
    by_cases hd : 0 < d
    · simp only [if_pos hd]
      exact key _ (fun h0 => hm (Nat.le_zero.mp (h0 ▸ maskSum_dilate_ge m d)))
    · simp only [if_neg hd]
      exact key _ hm

lemma blob_penalty_of_empty (mm iu : Mask) (s : Nat) (hmm : maskSum mm = 0) :
    blob_penalty mm iu s = 0 := by
  have h2 : maskSum (remove_small_objects mm s) = 0 :=
    Nat.le_zero.mp (hmm ▸ maskSum_remove_small_le mm s)
  simp [blob_penalty, h2]

lemma deltaRowSum_self (dE : Pix → Pix → ℚ) (hdE : ∀ p, dE p p = 0) :
    ∀ (ra : List Pix) (rm : List Bool), deltaRowSum dE ra ra rm = 0 := by
  intro ra
  induction ra with
  | nil => intro rm; cases rm <;> rfl
  | cons p ps ih =>
      intro rm
      cases rm with
      | nil => rfl
      | cons v vs => simp [deltaRowSum, hdE, ih]

lemma deltaSum_self (dE : Pix → Pix → ℚ) (hdE : ∀ p, dE p p = 0) :
    ∀ (a : Img) (m : Mask), deltaSum dE a a m = 0 := by
  intro a
  induction a with
  | nil => intro m; cases m <;> rfl
  | cons r rs ih =>
      intro m
      cases m with
      | nil => rfl
      | cons rm rms => simp [deltaSum, deltaRowSum_self dE hdE, ih]

lemma delta_e_mean_self (dE : Pix → Pix → ℚ) (hdE : ∀ p, dE p p = 0)
    (a : Img) (m : Mask) : delta_e_mean dE a a m = 0 := by
  unfold delta_e_mean
  by_cases hm : maskSum m = 0
  · simp [hm]
  · simp [hm, deltaSum_self dE hdE]

lemma normalized_total_one (w : ScoreWeights) (h : 0 < w.total) :
    w.normalized.total = 1 := by
  unfold ScoreWeights.normalized
  rw [if_neg (not_le.mpr h)]
  have ht : w.total ≠ 0 := ne_of_gt h
  simp only [ScoreWeights.total] at ht ⊢
  field_simp

lemma weighted_score_ones (w : ScoreWeights) (h : 0 < w.total) :
    weighted_score w 1 1 1 1 1 1 = 100 := by
  have := normalized_total_one w h
  simp only [ScoreWeights.total] at this
  simp only [weighted_score, mul_one]
  rw [this, one_mul]

lemma rgb2gray_white : rgb2gray whitePix = 1 := by
  norm_num [rgb2gray, whitePix]

lemma truePixelsFrom_replicate_false :
    ∀ (i h w : Nat), truePixelsFrom i (List.replicate h (List.replicate w false)) = [] := by
  intro i h
  induction h generalizing i with
  | zero => intro w; rfl
  | succ h ih =>
      intro w
      show idxTrue i 0 (List.replicate w false) ++
        truePixelsFrom (i + 1) (List.replicate h (List.replicate w false)) = []
      rw [idxTrue_replicate_false, ih (i + 1)]
      rfl

lemma maskSum_replicate_false (h w : Nat) :
    maskSum (List.replicate h (List.replicate w false)) = 0 := by
  simp [maskSum, truePixels, truePixelsFrom_replicate_false]

lemma otsu_threshold_le (o : Option ℚ) : otsu_threshold_used o ≤ 95 / 100 :=
  min_le_right _ _

lemma grayLT_white (h w : Nat) (thr : ℚ) (hthr : thr ≤ 95 / 100) :
    grayLT (rgb2grayImg (whiteImg h w)) thr = List.replicate h (List.replicate w false) := by
  have hfalse : decide ((1 : ℚ) < thr) = false := by
    simp only [decide_eq_false_iff_not, not_lt]
    linarith
  simp [grayLT, rgb2grayImg, whiteImg, List.map_replicate, rgb2gray_white, hfalse]

lemma ink_mask_white_empty (P : Prims) (h w ms : Nat) :
    maskSum (ink_mask P (rgb2grayImg (whiteImg h w)) ms) = 0 := by
  unfold ink_mask
  rw [grayLT_white h w _ (otsu_threshold_le _)]
  exact Nat.le_zero.mp
    (maskSum_replicate_false h w ▸
      maskSum_remove_small_le (List.replicate h (List.replicate w false)) ms)

lemma agg_foldl :
    ∀ (pages : List PageRec) (a : Nat) (b c d : ℚ),
      pages.foldl aggStep (a, b, c, d) =
        (a + (pages.map pageWeight).sum,
         b + (pages.map fun p => p.score * (pageWeight p : ℚ)).sum,
         c + (pages.map fun p => p.score_strict * (pageWeight p : ℚ)).sum,
         d + (pages.map fun p => p.score_drift * (pageWeight p : ℚ)).sum) := by
  intro pages
  induction pages with
  | nil => intro a b c d; simp
  | cons p ps ih =>
      intro a b c d
      simp only [List.foldl_cons, aggStep, List.map_cons, List.sum_cons, ih]
      refine Prod.ext ?_ (Prod.ext ?_ (Prod.ext ?_ ?_)) <;> simp <;> ring

lemma map_pageWeight_sum_pos (pages : List PageRec) (hne : pages ≠ []) :
    0 < (pages.map pageWeight).sum := by
  cases pages with
  | nil => exact absurd rfl hne
  | cons p ps =>
      simp only [List.map_cons, List.sum_cons]
      have : 0 < pageWeight p := lt_of_lt_of_le Nat.one_pos (le_max_right _ _)
      omega

lemma foldl_min_le_init (xs : List ℚ) : ∀ x : ℚ, xs.foldl min x ≤ x := by
  induction xs with
  | nil => intro x; exact le_refl x
  | cons y ys ih => intro x; exact le_trans (ih (min x y)) (min_le_left x y)

lemma foldl_min_le_mem (xs : List ℚ) : ∀ (x y : ℚ), y ∈ xs → xs.foldl min x ≤ y := by
  induction xs with
  | nil => intro x y hy; cases hy
  | cons z zs ih =>
      intro x y hy
      show List.foldl min (min x z) zs ≤ y
      rcases List.mem_cons.mp hy with h | h
      · subst h
        exact le_trans (foldl_min_le_init zs (min x y)) (min_le_right x y)
      · exact ih (min x z) y h

lemma foldl_min_mem (xs : List ℚ) : ∀ x : ℚ, xs.foldl min x ∈ x :: xs := by
  induction xs with
  | nil => intro x; simp
  | cons z zs ih =>
      intro x
      show List.foldl min (min x z) zs ∈ x :: z :: zs
      have h := ih (min x z)
      rcases List.mem_cons.mp h with h0 | h0
      · rw [h0]
        rcases min_choice x z with hc | hc
        · rw [hc]; exact List.mem_cons_self _ _
        · rw [hc]; exact List.mem_cons_of_mem _ (List.mem_cons_self _ _)
      · exact List.mem_cons_of_mem _ (List.mem_cons_of_mem _ h0)

lemma listMin_mem (l : List ℚ) (hne : l ≠ []) : listMin l ∈ l := by
  cases l with
  | nil => exact absurd rfl hne
  | cons x xs => exact foldl_min_mem xs x

lemma listMin_le (l : List ℚ) (y : ℚ) (hy : y ∈ l) : listMin l ≤ y := by
  cases l with
  | nil => cases hy
  | cons x xs =>
      rcases List.mem_cons.mp hy with h | h
      · exact h ▸ foldl_min_le_init xs x
      · exact foldl_min_le_mem xs x y h

/-- C5: _f1_with_tolerance handles degenerate masks by special-cased
return values rather than exceptions: both ink masks empty returns
exactly 1.0, and exactly one empty mask returns exactly 0.0, for every
pair of masks and every tolerance. -/
theorem f1_degenerate_masks (a b : Mask) (tol : ℚ) :
    (maskSum a = 0 ∧ maskSum b = 0 → f1_with_tolerance a b tol = 1) ∧
    (maskSum a = 0 ∧ maskSum b ≠ 0 → f1_with_tolerance a b tol = 0) ∧
    (maskSum a ≠ 0 ∧ maskSum b = 0 → f1_with_tolerance a b tol = 0) := by
  refine ⟨fun h => ?_, fun h => ?_, fun h => ?_⟩
  · simp [f1_with_tolerance, h.1, h.2]
  · simp [f1_with_tolerance, h.1, h.2]
  · simp [f1_with_tolerance, h.1, h.2]

/-- Witness for C5 at concrete masks. -/
theorem f1_degenerate_masks_witness :
    f1_with_tolerance [[false]] [[false]] 2 = 1 ∧
    f1_with_tolerance [[false]] [[true]] 2 = 0 :=
  ⟨(f1_degenerate_masks [[false]] [[false]] 2).1 (by decide),
   (f1_degenerate_masks [[false]] [[true]] 2).2.1 (by decide)⟩

/-- C7: for weights with positive total, normalized() sums to exactly 1,
is invariant under positive rescaling of all six weights (hence any
positive rescaling yields the same combined score), and the all-zero
weights are returned unchanged. -/
theorem score_weights_normalized_spec (w : ScoreWeights) (h : 0 < w.total) :
    w.normalized.total = 1 ∧
    (∀ c : ℚ, 0 < c → (ScoreWeights.smul c w).normalized = w.normalized) ∧
    (∀ c : ℚ, 0 < c → ∀ sf ss f1 ei cs bs : ℚ,
      weighted_score (ScoreWeights.smul c w) sf ss f1 ei cs bs =
        weighted_score w sf ss f1 ei cs bs) ∧
    (∀ w0 : ScoreWeights, w0 = ⟨0, 0, 0, 0, 0, 0⟩ → w0.normalized = w0) := by
  have hsc : ∀ c : ℚ, 0 < c → (ScoreWeights.smul c w).normalized = w.normalized := by
    intro c hc
    have ht : w.total ≠ 0 := ne_of_gt h
    have hc0 : c ≠ 0 := ne_of_gt hc
    have htc : (ScoreWeights.smul c w).total = c * w.total := by
      simp only [ScoreWeights.smul, ScoreWeights.total]
      ring
    unfold ScoreWeights.normalized
    rw [htc, if_neg (not_le.mpr (mul_pos hc h)), if_neg (not_le.mpr h)]
    simp only [ScoreWeights.smul, ScoreWeights.mk.injEq]
    refine ⟨?_, ?_, ?_, ?_, ?_, ?_⟩ <;> (field_simp; ring)
  refine ⟨normalized_total_one w h, hsc, ?_, ?_⟩
  · intro c hc sf ss f1 ei cs bs
    unfold weighted_score
    rw [hsc c hc]
  · intro w0 h0
    subst h0
    simp [ScoreWeights.normalized, ScoreWeights.total]

/-- Witness for C7 at concrete positive weights. -/
theorem score_weights_normalized_witness :
    (ScoreWeights.mk 1 2 3 4 5 6).normalized.total = 1 :=
  (score_weights_normalized_spec ⟨1, 2, 3, 4, 5, 6⟩ (by norm_num [ScoreWeights.total])).1

/-- C10: the ink threshold used by _ink_mask never exceeds 0.95, and when
Otsu thresholding fails (ValueError on e.g. a constant image) the mask is
still produced, with the 0.95 fallback threshold. -/
theorem ink_mask_threshold_spec (P : Prims) (gray : Gray) (ms : Nat) :
    otsu_threshold_used (P.otsu gray) ≤ 95 / 100 ∧
    (P.otsu gray = none →
      otsu_threshold_used (P.otsu gray) = 95 / 100 ∧
      ink_mask P gray ms = remove_small_objects (grayLT gray (95 / 100)) ms) := by
  refine ⟨otsu_threshold_le _, fun hnone => ?_⟩
  have hthr : otsu_threshold_used (P.otsu gray) = 95 / 100 := by
    rw [hnone]
    simp [otsu_threshold_used]
  refine ⟨hthr, ?_⟩
  unfold ink_mask
  rw [hthr]

/-- Witness for C10: trivPrims.otsu always fails, so the fallback
threshold is used. -/
theorem ink_mask_threshold_witness :
    ink_mask trivPrims [[0]] 1 = remove_small_objects (grayLT [[0]] (95 / 100)) 1 :=
  ((ink_mask_threshold_spec trivPrims [[0]] 1).2 rfl).2

/-- C4: _align_images returns the candidate unchanged when the estimated
shift exceeds max_shift_px in absolute value along either axis, and
otherwise applies the translation-only warp with constant white fill. -/
theorem align_images_shift_bound (P : Prims) (rg mg : Gray) (mov : Img) (cfg : ScoreConfig) :
    (cfg.max_shift_px < |(P.phaseCorr rg mg cfg.align_upsample).2| ∨
       cfg.max_shift_px < |(P.phaseCorr rg mg cfg.align_upsample).1| →
      align_images P rg mg mov cfg = mov) ∧
    (|(P.phaseCorr rg mg cfg.align_upsample).2| ≤ cfg.max_shift_px →
      |(P.phaseCorr rg mg cfg.align_upsample).1| ≤ cfg.max_shift_px →
      align_images P rg mg mov cfg =
        warpTranslation mov (P.phaseCorr rg mg cfg.align_upsample).1
          (P.phaseCorr rg mg cfg.align_upsample).2) := by
  constructor
  · intro h
    unfold align_images
    rw [if_pos h]
  · intro hx hy
    unfold align_images
    rw [if_neg (not_or.mpr ⟨not_lt.mpr hx, not_lt.mpr hy⟩)]

/-- Witness for C4: a reported 7-pixel horizontal shift exceeds the
default 5-pixel bound, so the candidate is returned unchanged. -/
theorem align_images_shift_bound_witness :
    align_images bigShiftPrims [[1]] [[1]] [[⟨0, 0, 0⟩]] defaultConfig = [[⟨0, 0, 0⟩]] :=
  (align_images_shift_bound bigShiftPrims [[1]] [[1]] [[⟨0, 0, 0⟩]] defaultConfig).1
    (Or.inl (by decide))

/-- C9: for nonnegative single_issue_min_gain and single_issue_cap the
combined page score is bounded below by the strict score and above by
the strict score plus the cap. -/
theorem page_score_bounds (cfg : ScoreConfig) (sM dM : MetricValues)
    (da : Bool) (ds : ℚ)
    (hg : 0 ≤ cfg.single_issue_min_gain) (hc : 0 ≤ cfg.single_issue_cap) :
    sM.score ≤ combinedScore cfg sM dM da ds ∧
    combinedScore cfg sM dM da ds ≤ sM.score + cfg.single_issue_cap := by
  unfold combinedScore
  by_cases hgate : singleIssueGate cfg sM dM da ds
  · rw [if_pos hgate]
    have himp : cfg.single_issue_min_gain ≤ dM.score - sM.score := by
      simp only [singleIssueGate, Bool.and_eq_true, decide_eq_true_eq] at hgate
      exact hgate.1.1.1.1.1.2
    have h0 : 0 ≤ min cfg.single_issue_cap (dM.score - sM.score) :=
      le_min hc (le_trans hg himp)
    have h1 : min cfg.single_issue_cap (dM.score - sM.score) ≤ cfg.single_issue_cap :=
      min_le_left _ _
    constructor <;> linarith
  · rw [if_neg hgate]
    exact ⟨le_refl _, by linarith⟩

/-- Witness for C9 at a concrete non-granting page. -/
theorem page_score_bounds_witness :
    (⟨50, 1, 1, 1, 1, 1, 0, 0, 100⟩ : MetricValues).score ≤
      combinedScore defaultConfig ⟨50, 1, 1, 1, 1, 1, 0, 0, 100⟩
        ⟨70, 1, 1, 1, 1, 1, 0, 0, 100⟩ true 3 :=
  (page_score_bounds defaultConfig ⟨50, 1, 1, 1, 1, 1, 0, 0, 100⟩
    ⟨70, 1, 1, 1, 1, 1, 0, 0, 100⟩ true 3 (by decide) (by decide)).1

/-- C8: score_document fails with the "no pages available" error exactly
when the number of scorable page pairs, min of the two lengths, is zero;
with at least one pair it returns a document score and no such error. -/
theorem score_document_no_pages_guard (sp : Img → Img → PageRec) (ws ss : List Img) :
    (min ws.length ss.length = 0 →
      score_document sp ws ss = Except.error "No pages available for scoring.") ∧
    (0 < min ws.length ss.length →
      ∃ d, score_document sp ws ss = Except.ok d) := by
  constructor
  · intro h
    unfold score_document
    rw [if_pos h]
  · intro h
    unfold score_document
    rw [if_neg (Nat.pos_iff_ne_zero.mp h)]
    exact ⟨_, rfl⟩

/-- Witness for C8: no pages at all yields the fatal error. -/
theorem score_document_no_pages_witness :
    score_document (fun _ _ => pgA) [] [] =
      Except.error "No pages available for scoring." :=
  (score_document_no_pages_guard (fun _ _ => pgA) [] []).1 rfl

/-- C1 (amended): single-issue credit is granted iff drift was applied,
the drift-corrected score exceeds the strict score by at least
single_issue_min_gain, drift_strength is at least min_drift_px, the
drift-corrected ssim_small, ink_f1 and edge_iou are at least their
floors, and the drift-corrected blob_penalty is at most (inclusively)
the ceiling.  When granted, the combined score is strict +
min(improvement, cap): it never exceeds the drift-corrected score and
reaches it exactly when the improvement is within the cap.  When not
granted, the combined score is the strict score unchanged. -/
theorem single_issue_credit_spec (cfg : ScoreConfig) (sM dM : MetricValues)
    (da : Bool) (ds : ℚ) :
    (singleIssueGate cfg sM dM da ds = true ↔
      (da = true ∧ cfg.single_issue_min_gain ≤ dM.score - sM.score ∧
       cfg.min_drift_px ≤ ds ∧
       cfg.single_issue_min_ssim_small ≤ dM.ssim_small ∧
       cfg.single_issue_min_ink_f1 ≤ dM.ink_f1 ∧
       cfg.single_issue_min_edge_iou ≤ dM.edge_iou ∧
       dM.blob_penalty ≤ cfg.single_issue_max_blob_penalty)) ∧
    (singleIssueGate cfg sM dM da ds = true →
      combinedScore cfg sM dM da ds =
        sM.score + min cfg.single_issue_cap (dM.score - sM.score) ∧
      combinedScore cfg sM dM da ds ≤ dM.score ∧
      (dM.score - sM.score ≤ cfg.single_issue_cap →
        combinedScore cfg sM dM da ds = dM.score)) ∧
    (singleIssueGate cfg sM dM da ds = false →
      combinedScore cfg sM dM da ds = sM.score) := by
  refine ⟨?_, ?_, ?_⟩
  · simp only [singleIssueGate, Bool.and_eq_true, decide_eq_true_eq]
    tauto
  · intro hgate
    unfold combinedScore
    rw [if_pos hgate]
    refine ⟨rfl, ?_, ?_⟩
    · have := min_le_right cfg.single_issue_cap (dM.score - sM.score)
      linarith
    · intro hcap
      rw [min_eq_right hcap]
      ring
  · intro hgate
    unfold combinedScore
    rw [if_neg (by simp [hgate])]

/-- Counterexample for C1 as stated: with the default configuration and
a drift-corrected blob_penalty exactly equal to the 0.03 ceiling, credit
is still granted (the code compares with <=, not strictly below), and
with improvement 20 within the cap 30 the combined score equals the full
drift-corrected score, so it is not true that it never reaches it. -/
theorem single_issue_reaches_drift_score :
    singleIssueGate defaultConfig ⟨50, 1, 1, 1, 1, 1, 0, 0, 100⟩
        ⟨70, 1, 9/10, 9/10, 8/10, 1, 0, 3/100, 100⟩ true 3 = true ∧
    ¬ ((3 : ℚ)/100 < defaultConfig.single_issue_max_blob_penalty) ∧
    combinedScore defaultConfig ⟨50, 1, 1, 1, 1, 1, 0, 0, 100⟩
        ⟨70, 1, 9/10, 9/10, 8/10, 1, 0, 3/100, 100⟩ true 3 =
      (⟨70, 1, 9/10, 9/10, 8/10, 1, 0, 3/100, 100⟩ : MetricValues).score := by
  have hgate : singleIssueGate defaultConfig ⟨50, 1, 1, 1, 1, 1, 0, 0, 100⟩
      ⟨70, 1, 9/10, 9/10, 8/10, 1, 0, 3/100, 100⟩ true 3 = true := by
    simp only [singleIssueGate, defaultConfig, Bool.and_eq_true, decide_eq_true_eq]
    norm_num
  refine ⟨hgate, ?_, ?_⟩
  · simp only [defaultConfig]
    norm_num
  · unfold combinedScore
    rw [if_pos hgate]
    show (50 : ℚ) + min defaultConfig.single_issue_cap (70 - 50) = 70
    rw [min_eq_right (by norm_num [defaultConfig])]
    norm_num

/-- Witness for C1 at a concrete non-granting page (drift not applied). -/
theorem single_issue_credit_spec_witness :
    combinedScore defaultConfig ⟨50, 1, 1, 1, 1, 1, 0, 0, 100⟩
        ⟨60, 1, 1, 1, 1, 1, 0, 1, 100⟩ false 0 =
      (⟨50, 1, 1, 1, 1, 1, 0, 0, 100⟩ : MetricValues).score :=
  (single_issue_credit_spec defaultConfig ⟨50, 1, 1, 1, 1, 1, 0, 0, 100⟩
    ⟨60, 1, 1, 1, 1, 1, 0, 1, 100⟩ false 0).2.2 (by decide)

/-- C2: document aggregation weighs each page by max(ink_area, 1), takes
the weighted mean of the combined, strict and drift scores, the minimum
combined score over the pages, and blends overall = 0.7 * average +
0.3 * min for all three variants. -/
theorem document_aggregation_spec (pages : List PageRec) (hne : pages ≠ []) :
    (aggregate pages).average_score =
      (pages.map fun p => p.score * (pageWeight p : ℚ)).sum /
        (((pages.map pageWeight).sum : Nat) : ℚ) ∧
    (aggregate pages).average_score_strict =
      (pages.map fun p => p.score_strict * (pageWeight p : ℚ)).sum /
        (((pages.map pageWeight).sum : Nat) : ℚ) ∧
    (aggregate pages).average_score_drift =
      (pages.map fun p => p.score_drift * (pageWeight p : ℚ)).sum /
        (((pages.map pageWeight).sum : Nat) : ℚ) ∧
    ((aggregate pages).min_score ∈ pages.map PageRec.score ∧
      ∀ p ∈ pages, (aggregate pages).min_score ≤ p.score) ∧
    (aggregate pages).overall_score =
      7 / 10 * (aggregate pages).average_score + 3 / 10 * (aggregate pages).min_score ∧
    (aggregate pages).overall_score_strict =
      7 / 10 * (aggregate pages).average_score_strict +
        3 / 10 * (aggregate pages).min_score_strict ∧
    (aggregate pages).overall_score_drift =
      7 / 10 * (aggregate pages).average_score_drift +
        3 / 10 * (aggregate pages).min_score_drift := by
  have htw : (pages.map pageWeight).sum ≠ 0 :=
    (map_pageWeight_sum_pos pages hne).ne'
  have hacc : pages.foldl aggStep (0, 0, 0, 0) =
      ((pages.map pageWeight).sum,
       (pages.map fun p => p.score * (pageWeight p : ℚ)).sum,
       (pages.map fun p => p.score_strict * (pageWeight p : ℚ)).sum,
       (pages.map fun p => p.score_drift * (pageWeight p : ℚ)).sum) := by
    rw [agg_foldl]
    simp
  have hmapne : pages.map PageRec.score ≠ [] := by
    cases pages with
    | nil => exact absurd rfl hne
    | cons p ps => simp
  unfold aggregate
  rw [hacc]
  simp only [if_neg htw]
  refine ⟨trivial, trivial, trivial, ⟨?_, ?_⟩, trivial, trivial, trivial⟩
  · exact listMin_mem _ hmapne
  · intro p hp
    exact listMin_le _ _ (List.mem_map_of_mem PageRec.score hp)

/-- Witness for C2: the aggregation example of the specification, a page
scoring 100 with ink area 1000 and a page scoring 0 with ink area 10. -/
theorem document_aggregation_witness :
    (aggregate [pgA, pgB]).average_score = 100000 / 1010 ∧
    (aggregate [pgA, pgB]).min_score = 0 ∧
    (aggregate [pgA, pgB]).overall_score =
      7 / 10 * (100000 / 1010 : ℚ) + 3 / 10 * 0 := by
  have h := document_aggregation_spec [pgA, pgB] (List.cons_ne_nil _ _)
  have havg : (aggregate [pgA, pgB]).average_score = 100000 / 1010 := by
    rw [h.1]
    norm_num [pgA, pgB, pageWeight]
  have hmin : (aggregate [pgA, pgB]).min_score = 0 := by
    show listMin (List.map PageRec.score [pgA, pgB]) = 0
    norm_num [listMin, pgA, pgB]
  refine ⟨havg, hmin, ?_⟩
  rw [h.2.2.2.2.1, havg, hmin]

/-- C3: scoring any image against an exact pixel copy of itself yields
all six sub-metrics equal to 1 and a combined score of exactly 100,
given the identity properties of the external SSIM and CIEDE2000
primitives (ssim(g, g) = 1 and deltaE(p, p) = 0), a nonnegative ink
tolerance and weights of positive total, as the defaults are. -/
theorem identity_scoring_perfect (P : Prims) (img : Img) (cfg : ScoreConfig)
    (hssim : ∀ g : Gray, P.ssim g g = 1)
    (hdE : ∀ p : Pix, P.deltaE p p = 0)
    (htol : 0 ≤ cfg.ink_tol_px)
    (hw : 0 < cfg.weights.total) :
    (compute_metrics P img img cfg).ssim_full = 1 ∧
    (compute_metrics P img img cfg).ssim_small = 1 ∧
    (compute_metrics P img img cfg).ink_f1 = 1 ∧
    (compute_metrics P img img cfg).edge_iou = 1 ∧
    (compute_metrics P img img cfg).color_sim = 1 ∧
    1 - (compute_metrics P img img cfg).blob_penalty = 1 ∧
    (compute_metrics P img img cfg).score = 100 := by
  have hf1 : ∀ m : Mask, f1_with_tolerance m m cfg.ink_tol_px = 1 :=
    fun m => f1_self m _ htol
  have hclamp : clamp01 (1 : ℚ) = 1 := by norm_num [clamp01]
  have hbp : ∀ (m iu : Mask) (s : Nat), blob_penalty (zipXor m m) iu s = 0 :=
    fun m iu s => blob_penalty_of_empty _ _ _ (maskSum_zipXor_self m)
  have hcolor : max (0 : ℚ) (1 - min ((0 : ℚ) / cfg.color_deltaE_max) 1) = 1 := by
    rw [zero_div]
    norm_num
  simp only [compute_metrics, zipOr_self, hf1, edge_iou_self, hssim, hbp,
    delta_e_mean_self P.deltaE hdE, hcolor, ite_self, hclamp, sub_zero,
    weighted_score_ones cfg.weights hw]
  norm_num

/-- Witness for C3: a concrete 1x1 black image scored against itself. -/
theorem identity_scoring_witness :
    (compute_metrics trivPrims [[⟨0, 0, 0⟩]] [[⟨0, 0, 0⟩]] defaultConfig).score = 100 :=
  (identity_scoring_perfect trivPrims [[⟨0, 0, 0⟩]] defaultConfig
    (fun _ => rfl) (fun _ => rfl) (by norm_num [defaultConfig])
    (by norm_num [defaultConfig, ScoreWeights.total])).2.2.2.2.2.2

/-- C6: two blank white pages, whose derived ink and edge masks are
empty, score ink_f1 = 1, edge_iou = 1, color_sim = 1 and blob_sim = 1,
with combined score exactly 100: the ink-mask emptiness is derived from
the 0.95 threshold cap, while edge emptiness (Canny of a constant image)
and the SSIM identity value are properties of the external primitives,
taken as hypotheses. -/
theorem blank_pages_perfect_score (P : Prims) (cfg : ScoreConfig) (h w : Nat)
    (hssim : ∀ g : Gray, P.ssim g g = 1)
    (hcanny : maskSum (P.canny (rgb2grayImg (whiteImg h w)) cfg.edge_sigma) = 0)
    (hw0 : 0 < cfg.weights.total) :
    (compute_metrics P (whiteImg h w) (whiteImg h w) cfg).ink_f1 = 1 ∧
    (compute_metrics P (whiteImg h w) (whiteImg h w) cfg).edge_iou = 1 ∧
    (compute_metrics P (whiteImg h w) (whiteImg h w) cfg).color_sim = 1 ∧
    1 - (compute_metrics P (whiteImg h w) (whiteImg h w) cfg).blob_penalty = 1 ∧
    (compute_metrics P (whiteImg h w) (whiteImg h w) cfg).score = 100 := by
  have hclamp : clamp01 (1 : ℚ) = 1 := by norm_num [clamp01]
  have hbp : ∀ (m iu : Mask) (s : Nat), blob_penalty (zipXor m m) iu s = 0 :=
    fun m iu s => blob_penalty_of_empty _ _ _ (maskSum_zipXor_self m)
  have hcolor : max (0 : ℚ) (1 - min ((0 : ℚ) / cfg.color_deltaE_max) 1) = 1 := by
    rw [zero_div]
    norm_num
  have hink := ink_mask_white_empty P h w cfg.ink_min_size
  have hf1 : ∀ tol : ℚ, f1_with_tolerance
      (ink_mask P (rgb2grayImg (whiteImg h w)) cfg.ink_min_size)
      (ink_mask P (rgb2grayImg (whiteImg h w)) cfg.ink_min_size) tol = 1 := by
    intro tol
    simp [f1_with_tolerance, hink]
  have hedge : edge_iou (P.canny (rgb2grayImg (whiteImg h w)) cfg.edge_sigma)
      (P.canny (rgb2grayImg (whiteImg h w)) cfg.edge_sigma) cfg.edge_dilate = 1 := by
    unfold edge_iou
    rw [if_pos ⟨hcanny, hcanny⟩]
  have hdem : delta_e_mean P.deltaE (whiteImg h w) (whiteImg h w)
      (ink_mask P (rgb2grayImg (whiteImg h w)) cfg.ink_min_size) = 0 := by
    simp [delta_e_mean, hink]
  simp only [compute_metrics, zipOr_self, hf1, hedge, hssim, hbp, hdem, hcolor,
    ite_self, hclamp, sub_zero, weighted_score_ones cfg.weights hw0]
  norm_num

/-- Witness for C6: concrete 1x1 blank white pages. -/
theorem blank_pages_perfect_witness :
    (compute_metrics trivPrims (whiteImg 1 1) (whiteImg 1 1) defaultConfig).score = 100 :=
  (blank_pages_perfect_score trivPrims defaultConfig 1 1 (fun _ => rfl)
    rfl (by norm_num [defaultConfig, ScoreWeights.total])).2.2.2.2
